import Mathlib

/-!
Shallow embedding of the Mandelbrot escape-time field generator of this
repository: `src/mandelbrot-rust/src/main.rs` (SDL variant, the canonical
FieldGenerator / EscapeComputer) and `src/mandelbrot-wasm/src/lib.rs`
(wasm variant, used only for the escape-test comparison and `_zoom`).

Modelling choices:
* `Float` (`f64`) is modelled by exact rationals `ℚ`; the properties under
  test are arithmetic-structural, not about rounding.
* The SDL variant's escape test `z.norm() >= 2.0` (with
  `norm = sqrt(re*re + im*im)` from `num_complex`) is modelled by the
  exact-real-equivalent square-root-free test `4 ≤ normSq z`; the
  equivalence over `ℝ` is proved below.
* The thread pool and mpsc channel of `View::generate` are modelled by
  making the arrival order of the `(row_index, row)` results an explicit
  parameter: `rows` is the list of spawned work results tagged with their
  row index, an arbitrary arrival order is any permutation of it, and
  `reassemble` is the `result.sort(); map snd` fan-in step of the source.
-/

/-- Complex numbers with rational components, mirroring `num_complex::Complex`
as used by the SDL variant and the hand-rolled `Complex` of the wasm variant
(both have the same `Add`/`Mul`, see `mandelbrot-wasm/src/lib.rs` lines
112-130). -/
structure Cplx where
  re : ℚ
  im : ℚ
  deriving DecidableEq, Repr

instance : Add Cplx :=
  ⟨fun a b => ⟨a.re + b.re, a.im + b.im⟩⟩

instance : Mul Cplx :=
  ⟨fun a b => ⟨a.re * b.re - a.im * b.im, a.re * b.im + a.im * b.re⟩⟩

theorem Cplx.add_def (a b : Cplx) : a + b = ⟨a.re + b.re, a.im + b.im⟩ := rfl

theorem Cplx.mul_def (a b : Cplx) :
    a * b = ⟨a.re * b.re - a.im * b.im, a.re * b.im + a.im * b.re⟩ := rfl

/-- Squared magnitude `re*re + im*im` (`num_complex`'s `norm_sqr`). -/
def Cplx.normSq (z : Cplx) : ℚ :=
  z.re * z.re + z.im * z.im

/-- The magnitude `sqrt(re*re + im*im)`: what `z.norm()` computes in the SDL
variant's escape test `z.norm() >= 2.0` (main.rs line 187). -/
noncomputable def Cplx.norm (z : Cplx) : ℝ :=
  Real.sqrt ((z.normSq : ℚ) : ℝ)

/-- The escape test of the wasm variant (lib.rs lines 80-84): with
`zz = z * z` (the complex square), it tests `zz.re + zz.im >= 4.0`. -/
def wasmEscapeTest (z : Cplx) : Prop :=
  4 ≤ (z * z).re + (z * z).im

instance (z : Cplx) : Decidable (wasmEscapeTest z) :=
  inferInstanceAs (Decidable (4 ≤ (z * z).re + (z * z).im))

/-- The `View` rectangle of the complex plane (both variants, identical). -/
structure View where
  left : ℚ
  right : ℚ
  top : ℚ
  bottom : ℚ
  deriving DecidableEq, Repr

/-- `View::new` (both variants): left -2.5, right 1.0, top 1.5, bottom -1.5. -/
def View.new : View :=
  ⟨-5/2, 1, 3/2, -3/2⟩

/-- `View::width`. -/
def View.width (v : View) : ℚ :=
  v.right - v.left

/-- `View::height`. -/
def View.height (v : View) : ℚ :=
  v.top - v.bottom

/-- `View::zoom` (SDL variant, main.rs lines 135-142); the wasm variant's
`View::_zoom` (lib.rs lines 45-52) is textually identical.  The source
mutates `self`; modelled as a pure transform returning the new `View`. -/
def View.zoom (v : View) (x y : ℚ) : View :=
  ⟨x - v.width / 4, x + v.width / 4, y + v.height / 4, y - v.height / 4⟩

/-- The inner escape loop of `View::generate_line` (main.rs lines 186-192):
`for i in 0..max_iterations { if |z| >= 2 { escape[x] = i; break; }
z = z*z + c }`.  `fuel` is the number of loop iterations left, `i` the
current loop index; when the loop runs out without the test firing, the
cell keeps its initial value `0` (from `vec![0; img_width]`, line 180). -/
def escapeGo (c : Cplx) : ℕ → Cplx → ℕ → ℕ
  | 0, _, _ => 0
  | fuel + 1, z, i => if 4 ≤ z.normSq then i else escapeGo c fuel (z * z + c) (i + 1)

/-- The EscapeComputer: per-sample iteration count with `z_0 = c`. -/
def escapeCount (maxIterations : ℕ) (c : Cplx) : ℕ :=
  escapeGo c maxIterations c 0

/-- `View::generate_line` (main.rs lines 179-198): one raster row of escape
counts, starting at sample real part `cx`, stepping by `step`. -/
def View.generate_line : ℕ → ℕ → ℚ → ℚ → ℚ → List ℕ
  | 0, _, _, _, _ => []
  | w + 1, maxIterations, cx, cy, step =>
      escapeCount maxIterations ⟨cx, cy⟩ ::
        View.generate_line w maxIterations (cx + step) cy step

/-- The orbit `z_0 = c`, `z_{n+1} = z_n * z_n + c` iterated by the escape
loop. -/
def orbit (c : Cplx) : ℕ → Cplx
  | 0 => c
  | n + 1 => orbit c n * orbit c n + c

/-- The work units spawned by `View::generate` (main.rs lines 163-172): for
each row index `y`, the pair `(y, generate_line ...)` that the worker sends
on the channel, with `cx = left`, `cy = top - y * scaley`,
`scalex = width / img_width`, `scaley = height / img_height`. -/
def View.rows (v : View) (w h maxIterations : ℕ) : List (ℕ × List ℕ) :=
  (List.range h).map fun y =>
    (y, View.generate_line w maxIterations v.left (v.top - y * (v.height / h))
      (v.width / w))

/-- The order Rust's `result.sort()` uses on the collected
`(usize, Vec<u16>)` pairs is the lexicographic tuple order; the row indices
in one generation are pairwise distinct, so the `Vec` tie-break is never
consulted and the sort orders by the row index. -/
def pairLe (a b : ℕ × List ℕ) : Prop :=
  a.1 ≤ b.1

instance : DecidableRel pairLe :=
  fun a b => inferInstanceAs (Decidable (a.1 ≤ b.1))

instance : IsTotal (ℕ × List ℕ) pairLe :=
  ⟨fun a b => Nat.le_total a.1 b.1⟩

instance : IsTrans (ℕ × List ℕ) pairLe :=
  ⟨fun _ _ _ h h2 => le_trans h h2⟩

/-- The fan-in step of `View::generate` (main.rs lines 174-176): collect the
arrived `(row_index, row)` pairs, `result.sort()`, strip the indices. -/
def reassemble (arrived : List (ℕ × List ℕ)) : List (List ℕ) :=
  (List.insertionSort pairLe arrived).map Prod.snd

/-- `View::generate` (main.rs lines 156-177).  The reference run: the rows
arrive in spawn order; any other arrival order gives the same field, which
is proved below. -/
def View.generate (v : View) (w h maxIterations : ℕ) : List (List ℕ) :=
  reassemble (View.rows v w h maxIterations)

/-- Upper bound on the escape loop result: the recorded index is at most the
starting index plus the remaining fuel. -/
theorem escapeGo_le (c : Cplx) (fuel : ℕ) :
    ∀ (z : Cplx) (i : ℕ), escapeGo c fuel z i ≤ i + fuel := by
  induction fuel with
  | zero => intro z i; exact Nat.zero_le _
  | succ f ih =>
    intro z i
    rw [escapeGo]
    split
    · omega
    · have := ih (z * z + c) (i + 1)
      omega

/-- Strict bound: with at least one loop iteration available, the result is
strictly below `i + fuel` (an escape records an index below the budget, and
fuel exhaustion leaves the initial `0`). -/
theorem escapeGo_lt (c : Cplx) :
    ∀ (fuel : ℕ), 1 ≤ fuel → ∀ (z : Cplx) (i : ℕ), escapeGo c fuel z i < i + fuel := by
  intro fuel
  induction fuel with
  | zero => intro h; exact absurd h (by omega)
  | succ f ih =>
    intro _ z i
    rw [escapeGo]
    split
    · omega
    · rcases Nat.eq_zero_or_pos f with hf | hf
      · subst hf
        rw [escapeGo]
        omega
      · have := ih hf (z * z + c) (i + 1)
        omega

/-- If no orbit point from index `i` on (within the fuel budget) passes the
escape test, the loop exhausts its fuel and the cell keeps its initial 0. -/
theorem escapeGo_of_no_escape (c : Cplx) :
    ∀ (fuel i : ℕ), (∀ j, i ≤ j → j < i + fuel → (orbit c j).normSq < 4) →
      escapeGo c fuel (orbit c i) i = 0 := by
  intro fuel
  induction fuel with
  | zero => intro i _; rfl
  | succ f ih =>
    intro i h
    rw [escapeGo, if_neg (not_le.mpr (h i le_rfl (by omega)))]
    show escapeGo c f (orbit c (i + 1)) (i + 1) = 0
    exact ih (i + 1) (fun j hj hj2 => h j (by omega) (by omega))

/-- If `j` is the first orbit index at or after `i` passing the escape test
and it lies within the fuel budget, the loop returns `j`. -/
theorem escapeGo_first_escape (c : Cplx) :
    ∀ (fuel i j : ℕ), i ≤ j → j < i + fuel → 4 ≤ (orbit c j).normSq →
      (∀ k, i ≤ k → k < j → (orbit c k).normSq < 4) →
      escapeGo c fuel (orbit c i) i = j := by
  intro fuel
  induction fuel with
  | zero => intro i j h1 h2 _ _; exact absurd h2 (by omega)
  | succ f ih =>
    intro i j h1 h2 h3 h4
    rw [escapeGo]
    by_cases hesc : 4 ≤ (orbit c i).normSq
    · rw [if_pos hesc]
      rcases eq_or_lt_of_le h1 with he | hlt
      · exact he
      · exact absurd hesc (not_le.mpr (h4 i le_rfl hlt))
    · rw [if_neg hesc]
      have hij : i < j := lt_of_le_of_ne h1 (fun he => hesc (he ▸ h3))
      show escapeGo c f (orbit c (i + 1)) (i + 1) = j
      exact ih (i + 1) j hij (by omega) h3 (fun k hk1 hk2 => h4 k (by omega) hk2)

/-- `escapeCount` in terms of the orbit: non-escaping samples keep 0. -/
theorem escapeCount_of_no_escape (m : ℕ) (c : Cplx)
    (h : ∀ i, i < m → (orbit c i).normSq < 4) : escapeCount m c = 0 := by
  have := escapeGo_of_no_escape c m 0 (fun j _ hj2 => h j (by omega))
  simpa [escapeCount, orbit] using this

/-- `escapeCount` in terms of the orbit: the first escaping index is
returned. -/
theorem escapeCount_first_escape (m : ℕ) (c : Cplx) (j : ℕ) (hj : j < m)
    (hesc : 4 ≤ (orbit c j).normSq) (hmin : ∀ k, k < j → (orbit c k).normSq < 4) :
    escapeCount m c = j := by
  have := escapeGo_first_escape c m 0 j (Nat.zero_le j) (by omega) hesc
    (fun k _ hk2 => hmin k hk2)
  simpa [escapeCount, orbit] using this

/-- The EscapeComputer result never exceeds the iteration cap. -/
theorem escapeCount_le (m : ℕ) (c : Cplx) : escapeCount m c ≤ m := by
  have := escapeGo_le c m c 0
  simpa [escapeCount] using this

/-- With a positive cap, the EscapeComputer result is strictly below it. -/
theorem escapeCount_lt (m : ℕ) (hm : 1 ≤ m) (c : Cplx) : escapeCount m c < m := by
  have := escapeGo_lt c m hm c 0
  simpa [escapeCount] using this

/-- `View::generate_line` computes, at offset `x`, the escape count of the
sample `(cx + x * step, cy)`: the repeated `cx = cx + step` stepping of the
source sums to `x` steps. -/
theorem generate_line_eq_map :
    ∀ (w m : ℕ) (cx cy step : ℚ), View.generate_line w m cx cy step =
      (List.range w).map (fun x : ℕ => escapeCount m ⟨cx + (x : ℚ) * step, cy⟩) := by
  intro w
  induction w with
  | zero => intro m cx cy step; rfl
  | succ n ih =>
    intro m cx cy step
    rw [View.generate_line, List.range_succ_eq_map, List.map_cons, List.map_map, ih]
    congr 1
    · norm_num
    · apply List.map_congr_left
      intro x _
      simp only [Function.comp]
      congr 2
      push_cast
      ring

/-- The spawned work units of `View::generate` come tagged with strictly
increasing row indices, so they are already `pairLe`-sorted. -/
theorem rows_sorted (v : View) (w h m : ℕ) : (View.rows v w h m).Sorted pairLe := by
  rw [View.rows]
  apply List.pairwise_map.mpr
  exact (List.pairwise_lt_range h).imp (fun hab => le_of_lt hab)

/-- Full functional characterization of `View::generate`: the field is the
`img_height × img_width` grid of escape counts of the linearly interpolated
samples. -/
theorem generate_eq_map (v : View) (w h m : ℕ) :
    View.generate v w h m = (List.range h).map (fun y : ℕ => (List.range w).map
      (fun x : ℕ => escapeCount m
        ⟨v.left + (x : ℚ) * (v.width / w), v.top - (y : ℚ) * (v.height / h)⟩)) := by
  rw [View.generate, reassemble, (rows_sorted v w h m).insertionSort_eq, View.rows, List.map_map]
  apply List.map_congr_left
  intro y _
  simp only [Function.comp]
  exact generate_line_eq_map w m v.left _ (v.width / w)

/-- Strict key order on the channel items; antisymmetric (vacuously), which
lets two sorted permutations with distinct keys be identified. -/
def pairLt (a b : ℕ × List ℕ) : Prop :=
  a.1 < b.1

instance : IsAntisymm (ℕ × List ℕ) pairLt :=
  ⟨fun _ _ h1 h2 => absurd (lt_trans h1 h2) (lt_irrefl _)⟩

/-- A `pairLe`-sorted list whose keys are pairwise distinct is
`pairLt`-sorted. -/
theorem pairwise_lt_of_le_ne :
    ∀ (l : List (ℕ × List ℕ)), l.Pairwise pairLe →
      l.Pairwise (fun a b => a.1 ≠ b.1) → l.Pairwise pairLt := by
  intro l
  induction l with
  | nil => intro _ _; exact List.Pairwise.nil
  | cons a t ih =>
    intro h1 h2
    rcases List.pairwise_cons.mp h1 with ⟨ha1, ht1⟩
    rcases List.pairwise_cons.mp h2 with ⟨ha2, ht2⟩
    exact List.pairwise_cons.mpr
      ⟨fun b hb => lt_of_le_of_ne (ha1 b hb) (ha2 b hb), ih ht1 ht2⟩

/-- Two `pairLe`-sorted permutations of each other with duplicate-free keys
are equal: the fan-in sort has a unique result. -/
theorem sorted_key_nodup_eq (l₁ l₂ : List (ℕ × List ℕ)) (hp : l₁.Perm l₂)
    (hs₁ : l₁.Sorted pairLe) (hs₂ : l₂.Sorted pairLe)
    (hn : (l₁.map Prod.fst).Nodup) : l₁ = l₂ := by
  have hn₂ : (l₂.map Prod.fst).Nodup := ((hp.map Prod.fst).nodup_iff).mp hn
  have k₁ : l₁.Pairwise pairLt :=
    pairwise_lt_of_le_ne l₁ hs₁ (List.pairwise_map.mp hn)
  have k₂ : l₂.Pairwise pairLt :=
    pairwise_lt_of_le_ne l₂ hs₂ (List.pairwise_map.mp hn₂)
  exact List.eq_of_perm_of_sorted hp k₁ k₂

/-- The keys of the spawned work units are exactly `0, 1, ..., h-1`. -/
theorem rows_keys (v : View) (w h m : ℕ) :
    (View.rows v w h m).map Prod.fst = List.range h := by
  rw [View.rows, List.map_map]
  exact List.map_id (List.range h)

/-- C2: the field returned by `generate` is the same for every order in
which the `(row_index, row_data)` results arrive on the completion channel:
for any permutation of the spawned results, the `sort`-based reassembly
yields the rows in ascending row index, so two runs with identical inputs
but different worker scheduling produce identical output. -/
theorem C2_generate_order_independent (v : View) (w h m : ℕ)
    (arrival : List (ℕ × List ℕ)) (harr : arrival.Perm (View.rows v w h m)) :
    reassemble arrival = View.generate v w h m := by
  rw [View.generate, reassemble, reassemble]
  congr 1
  apply sorted_key_nodup_eq
  · exact (List.perm_insertionSort pairLe arrival).trans
      (harr.trans (List.perm_insertionSort pairLe _).symm)
  · exact List.sorted_insertionSort pairLe arrival
  · exact List.sorted_insertionSort pairLe _
  · have hperm : ((List.insertionSort pairLe arrival).map Prod.fst).Perm (List.range h) := by
      rw [← rows_keys v w h m]
      exact ((List.perm_insertionSort pairLe arrival).trans harr).map Prod.fst
    exact hperm.nodup_iff.mpr (List.nodup_range h)

/-- Witness for C2: a concrete run whose rows arrive in reverse order
reassembles to the reference field. -/
theorem C2_witness :
    ((View.rows View.new 1 2 1).reverse).Perm (View.rows View.new 1 2 1) ∧
      reassemble ((View.rows View.new 1 2 1).reverse) = View.generate View.new 1 2 1 :=
  ⟨(View.rows View.new 1 2 1).reverse_perm,
    C2_generate_order_independent View.new 1 2 1 _ (View.rows View.new 1 2 1).reverse_perm⟩

/-- C4: the field returned by `generate` has exactly `img_height` rows, each
row exactly `img_width` entries, and every entry lies in `[0, max_iterations]`
(entries are naturals, so the lower bound is `e ≤ m`). -/
theorem C4_generate_shape_and_range (v : View) (w h m : ℕ)
    (hw : 1 ≤ w) (hh : 1 ≤ h) :
    (View.generate v w h m).length = h ∧
      ∀ row ∈ View.generate v w h m, row.length = w ∧ ∀ e ∈ row, e ≤ m := by
  rw [generate_eq_map]
  constructor
  · simp
  · intro row hrow
    rcases List.mem_map.mp hrow with ⟨y, _, rfl⟩
    constructor
    · simp
    · intro e he
      rcases List.mem_map.mp he with ⟨x, _, rfl⟩
      exact escapeCount_le m _

/-- Witness for C4 at a concrete 1×1 call. -/
theorem C4_witness :
    (1:ℕ) ≤ 1 ∧ ((View.generate View.new 1 1 0).length = 1 ∧
      ∀ row ∈ View.generate View.new 1 1 0, row.length = 1 ∧ ∀ e ∈ row, e ≤ 0) :=
  ⟨le_rfl, C4_generate_shape_and_range View.new 1 1 0 le_rfl le_rfl⟩

/-- C7: the complex sample fed to the EscapeComputer for pixel `(x, y)` is
exactly `(left + x * (width / img_width), top - y * (height / img_height))`,
and for a 1×1 raster the single sample is exactly the top-left corner
`(left, top)`. -/
theorem C7_sample_coordinates (v : View) (w h m : ℕ) (hw : 1 ≤ w) (hh : 1 ≤ h) :
    View.generate v w h m = (List.range h).map (fun y : ℕ => (List.range w).map
      (fun x : ℕ => escapeCount m
        ⟨v.left + (x : ℚ) * (v.width / w), v.top - (y : ℚ) * (v.height / h)⟩)) ∧
      View.generate v 1 1 m = [[escapeCount m ⟨v.left, v.top⟩]] := by
  refine ⟨generate_eq_map v w h m, ?_⟩
  rw [generate_eq_map]
  simp [List.range_succ]

/-- Witness for C7 at a concrete 1×1 call on the default view. -/
theorem C7_witness :
    (1:ℕ) ≤ 1 ∧
      (View.generate View.new 1 1 1 = (List.range 1).map (fun y : ℕ => (List.range 1).map
        (fun x : ℕ => escapeCount 1
          ⟨View.new.left + (x : ℚ) * (View.new.width / ((1:ℕ) : ℚ)),
            View.new.top - (y : ℚ) * (View.new.height / ((1:ℕ) : ℚ))⟩)) ∧
        View.generate View.new 1 1 1 = [[escapeCount 1 ⟨View.new.left, View.new.top⟩]]) :=
  ⟨le_rfl, C7_sample_coordinates View.new 1 1 1 le_rfl le_rfl⟩

/-- C8: calling `generate` with `max_iterations = 0` yields a field in which
every entry is 0: the loop body never runs, every cell keeps its initial 0. -/
theorem C8_zero_iterations (v : View) (w h : ℕ) (hw : 1 ≤ w) (hh : 1 ≤ h) :
    ∀ row ∈ View.generate v w h 0, ∀ e ∈ row, e = 0 := by
  rw [generate_eq_map]
  intro row hrow e he
  rcases List.mem_map.mp hrow with ⟨y, _, rfl⟩
  rcases List.mem_map.mp he with ⟨x, _, rfl⟩
  rfl

/-- Witness for C8 at a concrete 1×1 call. -/
theorem C8_witness :
    (1:ℕ) ≤ 1 ∧ ∀ row ∈ View.generate View.new 1 1 0, ∀ e ∈ row, e = 0 :=
  ⟨le_rfl, C8_zero_iterations View.new 1 1 le_rfl le_rfl⟩

/-- C9: for `max_iterations ≥ 1` every count produced by `generate_line` is
strictly below `max_iterations`: an escaping pixel records an index in
`[0, max_iterations - 1]` and a non-escaping pixel keeps its initial 0, so
the cap value itself never appears in a generated field. -/
theorem C9_count_lt_max (w m : ℕ) (cx cy step : ℚ) (hm : 1 ≤ m) :
    ∀ e ∈ View.generate_line w m cx cy step, e < m := by
  rw [generate_line_eq_map]
  intro e he
  rcases List.mem_map.mp he with ⟨x, _, rfl⟩
  exact escapeCount_lt m hm _

/-- Witness for C9 on a concrete one-pixel row. -/
theorem C9_witness :
    (1:ℕ) ≤ 1 ∧ ∀ e ∈ View.generate_line 1 1 0 0 0, e < 1 :=
  ⟨le_rfl, C9_count_lt_max 1 1 0 0 0 le_rfl⟩

/-- C10: on a well-oriented view, `zoom(x, y)` keeps the orientation
invariants, has its corners at `x ∓ width/4`, `y ± height/4`, halves both
extents, and is centered at `(x, y)`. -/
theorem C10_zoom_halves (v : View) (x y : ℚ)
    (h₁ : v.left < v.right) (h₂ : v.bottom < v.top) :
    (v.zoom x y).left < (v.zoom x y).right ∧
      (v.zoom x y).bottom < (v.zoom x y).top ∧
      (v.zoom x y).left = x - v.width / 4 ∧ (v.zoom x y).right = x + v.width / 4 ∧
      (v.zoom x y).top = y + v.height / 4 ∧ (v.zoom x y).bottom = y - v.height / 4 ∧
      (v.zoom x y).width = v.width / 2 ∧ (v.zoom x y).height = v.height / 2 ∧
      ((v.zoom x y).left + (v.zoom x y).right) / 2 = x ∧
      ((v.zoom x y).top + (v.zoom x y).bottom) / 2 = y := by
  have hw : 0 < v.width := by rw [View.width]; linarith
  have hh : 0 < v.height := by rw [View.height]; linarith
  refine ⟨?_, ?_, rfl, rfl, rfl, rfl, ?_, ?_, ?_, ?_⟩ <;>
    simp only [View.zoom, View.width, View.height]
  · linarith
  · linarith
  · ring
  · ring
  · ring
  · ring

/-- Witness for C10 on the default view, zooming on the origin. -/
theorem C10_witness :
    View.new.left < View.new.right ∧ View.new.bottom < View.new.top ∧
      ((View.new.zoom 0 0).left < (View.new.zoom 0 0).right ∧
        (View.new.zoom 0 0).bottom < (View.new.zoom 0 0).top ∧
        (View.new.zoom 0 0).left = 0 - View.new.width / 4 ∧
        (View.new.zoom 0 0).right = 0 + View.new.width / 4 ∧
        (View.new.zoom 0 0).top = 0 + View.new.height / 4 ∧
        (View.new.zoom 0 0).bottom = 0 - View.new.height / 4 ∧
        (View.new.zoom 0 0).width = View.new.width / 2 ∧
        (View.new.zoom 0 0).height = View.new.height / 2 ∧
        ((View.new.zoom 0 0).left + (View.new.zoom 0 0).right) / 2 = 0 ∧
        ((View.new.zoom 0 0).top + (View.new.zoom 0 0).bottom) / 2 = 0) :=
  ⟨by with_unfolding_all decide, by with_unfolding_all decide,
    C10_zoom_halves View.new 0 0 (by with_unfolding_all decide)
      (by with_unfolding_all decide)⟩

/-- C1 counterexample: for `c = 0` and `max_iterations = 1` no iterate
escapes, yet `generate_line` produces `0`, not `max_iterations = 1`: the
`escape` cell is only written on a break, so a never-escaping sample keeps
its initial 0 instead of saturating at the cap. -/
theorem C1_counterexample :
    (∀ i, i < 1 → (orbit ⟨0, 0⟩ i).normSq < 4) ∧
      View.generate_line 1 1 0 0 0 ≠ [1] ∧ escapeCount 1 ⟨0, 0⟩ = 0 := by
  refine ⟨?_, ?_, ?_⟩ <;> with_unfolding_all decide

/-- C1 amended: if no iterate of `z_{n+1} = z_n^2 + c`, `z_0 = c`, reaches
squared magnitude 4 within `max_iterations` steps, the per-pixel count
produced by the EscapeComputer is `0` (the cell keeps its initial value);
in particular `c = 0` yields `0` for any `max_iterations`. -/
theorem C1_amended (m : ℕ) (c : Cplx)
    (h : ∀ i, i < m → (orbit c i).normSq < 4) : escapeCount m c = 0 :=
  escapeCount_of_no_escape m c h

/-- Witness for C1 (amended) at `c = 0`, `max_iterations = 2`. -/
theorem C1_witness :
    (∀ i, i < 2 → (orbit ⟨0, 0⟩ i).normSq < 4) ∧ escapeCount 2 ⟨0, 0⟩ = 0 :=
  ⟨by with_unfolding_all decide, C1_amended 2 ⟨0, 0⟩ (by with_unfolding_all decide)⟩

/-- C3: when some iterate of `z_{n+1} = z_n^2 + c`, `z_0 = c`, first reaches
squared magnitude 4 at 0-indexed step `j` within the budget, the
EscapeComputer returns exactly `j`. -/
theorem C3_first_escape (c : Cplx) (m j : ℕ) (hm : 1 ≤ m) (hj : j < m)
    (hesc : 4 ≤ (orbit c j).normSq)
    (hmin : ∀ k, k < j → (orbit c k).normSq < 4) :
    escapeCount m c = j :=
  escapeCount_first_escape m c j hj hesc hmin

/-- Witness for C3 at `c = 3 + 0i`, `max_iterations = 1`: the count is `0`
because `|z_0| = 3 >= 2` already holds at the first check. -/
theorem C3_witness :
    (1:ℕ) ≤ 1 ∧ (0:ℕ) < 1 ∧ 4 ≤ (orbit ⟨3, 0⟩ 0).normSq ∧
      escapeCount 1 ⟨3, 0⟩ = 0 :=
  ⟨le_rfl, Nat.zero_lt_one, by with_unfolding_all decide,
    C3_first_escape ⟨3, 0⟩ 1 0 le_rfl Nat.zero_lt_one (by with_unfolding_all decide)
      (fun k hk => absurd hk (Nat.not_lt_zero k))⟩

/-- C5 counterexample: with `img_width = 0` and `img_height = 2`, `generate`
does not reject the call: it dispatches one work unit per row (two units)
and returns a field of two empty rows — the claimed pre-dispatch rejection
with an error does not exist in the code. -/
theorem C5_counterexample :
    View.rows View.new 0 2 5 = [(0, []), (1, [])] ∧
      View.generate View.new 0 2 5 = [[], []] := by
  constructor <;> with_unfolding_all decide

/-- C5 amended: `generate` performs no dimension validation: with
`img_width = 0` it dispatches all `img_height` row units and returns
`img_height` empty rows, and with `img_height = 0` it returns the empty
field; no error is raised in either case. -/
theorem C5_amended (v : View) (n m : ℕ) :
    View.generate v 0 n m = List.replicate n [] ∧ View.generate v n 0 m = [] := by
  constructor
  · rw [generate_eq_map]
    simp
  · rw [generate_eq_map]
    simp

/-- C6: the SDL variant's test `norm() >= 2.0` is equivalent to the
squared-magnitude test `re^2 + im^2 >= 4` for every complex sample, but the
wasm variant's test — `zz.re + zz.im >= 4.0` computed from the components of
the complex square `zz = z * z`, i.e. `re^2 - im^2 + 2*re*im >= 4` — decides
a different condition: at `z = 0 + 2i` both magnitude tests hold while the
wasm test evaluates `-4 >= 4`, false. -/
theorem C6_escape_test_equivalence_and_wasm_bug :
    (∀ z : Cplx, 2 ≤ z.norm ↔ 4 ≤ z.normSq) ∧
      4 ≤ Cplx.normSq ⟨0, 2⟩ ∧ ¬ wasmEscapeTest ⟨0, 2⟩ := by
  refine ⟨?_, by with_unfolding_all decide, by with_unfolding_all decide⟩
  intro z
  have hs : (0:ℝ) ≤ ((z.normSq : ℚ) : ℝ) := by
    have h0 : (0:ℚ) ≤ z.normSq := by
      rw [Cplx.normSq]
      exact add_nonneg (mul_self_nonneg _) (mul_self_nonneg _)
    exact_mod_cast h0
  rw [Cplx.norm]
  constructor
  · intro h
    have hsq := Real.sq_sqrt hs
    have h4 : (4:ℝ) ≤ ((z.normSq : ℚ) : ℝ) := by
      nlinarith [Real.sqrt_nonneg ((z.normSq : ℚ) : ℝ)]
    exact_mod_cast h4
  · intro h
    have h4 : (4:ℝ) ≤ ((z.normSq : ℚ) : ℝ) := by exact_mod_cast h
    have hmono : Real.sqrt 4 ≤ Real.sqrt ((z.normSq : ℚ) : ℝ) :=
      Real.sqrt_le_sqrt h4
    have h2 : Real.sqrt 4 = 2 := by
      rw [show (4:ℝ) = 2 ^ 2 by norm_num]
      exact Real.sqrt_sq (by norm_num)
    rwa [h2] at hmono
